import Mathlib

/- Verification model of the automana repository (rules package and
   client/section.go): the HTML linkifier, the time-window gate, the
   search-query mutators, section lookup by name, and the per-iteration
   rule executor. -/

namespace Automana

/-- Go strings modelled as character sequences. -/
abbrev GoStr := List Char

/-- Model of strings.HasPrefix(s, p). -/
def strStartsWith : GoStr → GoStr → Bool
  | _, [] => true
  | [], _ :: _ => false
  | c :: s, p :: ps => c == p && strStartsWith s ps

/-- Model of strings.Split(s, newline): the pieces of s between newline
characters; never empty, and a piece never contains a newline. -/
def splitNewline : GoStr → List GoStr
  | [] => [[]]
  | c :: rest =>
    if c = '\n' then [] :: splitNewline rest
    else
      match splitNewline rest with
      | [] => [[c]]
      | l :: ls => (c :: l) :: ls

/-- Node types of golang.org/x/net/html.Node (html.NodeType). -/
inductive NType where
  | errorNode
  | textNode
  | documentNode
  | elementNode
  | commentNode
  | doctypeNode
deriving DecidableEq

/-- Model of html.Attribute; the repository only ever uses Key and Val. -/
structure HtmlAttr where
  key : GoStr
  val : GoStr
deriving DecidableEq

/-- Model of html.Node restricted to the fields the rules package reads or
writes: Type, DataAtom, Data, Attr, FirstChild, NextSibling. A nil pointer
is the constructor null, so the FirstChild/NextSibling pointer structure
is represented directly. -/
inductive Node where
  | null : Node
  | mk (ntype : NType) (dataAtom : GoStr) (data : GoStr) (attr : List HtmlAttr)
      (firstChild : Node) (nextSibling : Node) : Node
deriving DecidableEq

/-- Tag name of anchor elements ("a"). -/
def aStr : GoStr := ['a']

/-- Attribute key "href". -/
def hrefStr : GoStr := ['h', 'r', 'e', 'f']

def httpPrefix : GoStr := ['h', 't', 't', 'p', ':', '/', '/']

def httpsPrefix : GoStr := ['h', 't', 't', 'p', 's', ':', '/', '/']

/-- Line test used by nodeHasUnlinkedURL (part_000 line 572). -/
def lineHasURL (line : GoStr) : Bool :=
  strStartsWith line httpPrefix || strStartsWith line httpsPrefix

/-- Model of nodeHasUnlinkedURL (part_000 lines 569-579): a text node whose
data, split on newlines, has a line beginning with a URL scheme prefix. -/
def nodeHasUnlinkedURL : Node → Bool
  | .null => false
  | .mk t _ d _ _ _ => t == NType.textNode && (splitNewline d).any lineHasURL

/-- Body of the conversion loop of fixUnlinkedURL (part_000 lines 496-513):
a node for which nodeHasUnlinkedURL holds is rewritten in place into an
anchor element whose single child is a text node carrying the old data and
whose href attribute equals that data; any other node is left unchanged. -/
def convertRunNode : Node → Node
  | .null => .null
  | .mk t da d a fc ns =>
    if nodeHasUnlinkedURL (.mk t da d a fc ns) then
      .mk NType.elementNode aStr aStr (a ++ [⟨hrefStr, d⟩])
        (.mk NType.textNode [] d [] .null .null) ns
    else
      .mk t da d a fc ns

/-- Sibling run produced by splitTextNodes (part_000 lines 517-542) for the
given lines, with the conversion loop (lines 496-513) already applied to
each inserted node: one node per line, explicit newline text nodes between
consecutive lines, ending at the old next sibling. -/
def linkedRun : List GoStr → Node → Node
  | [], next => next
  | [line], next => convertRunNode (.mk NType.textNode [] line [] .null next)
  | line :: rest, next =>
    convertRunNode (.mk NType.textNode [] line [] .null
      (convertRunNode (.mk NType.textNode [] ['\n'] [] .null (linkedRun rest next))))

/-- Model of fixUnlinkedURL (part_000 lines 478-515). A nil node is left
alone; an anchor element is returned unchanged before either recursive call
happens, so neither its subtree nor anything reachable through its
NextSibling pointer is processed; otherwise the first child and the next
sibling are processed recursively and then, if the node itself has an
unlinked URL, its data is cleared, the sibling run of per-line nodes is
spliced in before the (already processed) old next sibling, and the
conversion loop runs over the node and the inserted run. -/
def fixUnlinkedURL : Node → Node
  | .null => .null
  | .mk t da d a fc ns =>
    if t = NType.elementNode ∧ d = aStr then
      .mk t da d a fc ns
    else
      let fc2 := fixUnlinkedURL fc
      let ns2 := fixUnlinkedURL ns
      if nodeHasUnlinkedURL (.mk t da d a fc2 ns2) then
        convertRunNode (.mk t da [] a fc2 (linkedRun (splitNewline d) ns2))
      else
        .mk t da d a fc2 ns2

/-- Model of hasUnlinkedURL (part_000 lines 544-567): the read-only
detection predicate, with the same early return at anchor elements that
skips both their subtree and their following siblings. -/
def hasUnlinkedURL : Node → Bool
  | .null => false
  | .mk t da d a fc ns =>
    if t = NType.elementNode ∧ d = aStr then
      false
    else
      nodeHasUnlinkedURL (.mk t da d a fc ns) || hasUnlinkedURL fc || hasUnlinkedURL ns

/-- Concatenated character data of all text nodes of a tree, in document
order; the text the serializer emits outside of markup. -/
def textContent : Node → GoStr
  | .null => []
  | .mk t _ d _ fc ns =>
    (if t = NType.textNode then d else []) ++ textContent fc ++ textContent ns

/-- Follows the words of the spec for a single line of a split text node:
a line beginning with a scheme prefix becomes an anchor element wrapping
that line in a child text node, with href equal to the line itself; any
other line stays a plain text node. -/
def lineNodeSpec (line : GoStr) (next : Node) : Node :=
  if lineHasURL line then
    .mk NType.elementNode aStr aStr [⟨hrefStr, line⟩]
      (.mk NType.textNode [] line [] .null .null) next
  else
    .mk NType.textNode [] line [] .null next

/-- Follows the words of the spec for the whole converted run: the lines
with explicit newline text nodes re-inserted between them, each
newline-free chunk turned into its per-line node, ending at the old next
sibling. -/
def runSpec (L : List GoStr) (next : Node) : Node :=
  (L.intersperse ['\n']).foldr lineNodeSpec next

/-- Three lines of which the first and third are bare URLs, with both
scheme prefixes represented. -/
def urlLines : GoStr :=
  "http://a.example\nplain\nhttps://b.example".toList

/-- Model of civil.Time: a time of day as hour, minute, second and
nanosecond fields (Go int fields). -/
structure CivilTime where
  hour : Int
  minute : Int
  second : Int
  nanosecond : Int
deriving DecidableEq

/-- Model of timeBefore (part_000 lines 581-586): lexicographic strict
comparison on (hour, minute, second, nanosecond). -/
def timeBefore (t1 t2 : CivilTime) : Bool :=
  decide (t1.hour < t2.hour) ||
  (t1.hour == t2.hour && decide (t1.minute < t2.minute)) ||
  (t1.hour == t2.hour && t1.minute == t2.minute && decide (t1.second < t2.second)) ||
  (t1.hour == t2.hour && t1.minute == t2.minute && t1.second == t2.second &&
    decide (t1.nanosecond < t2.nanosecond))

/-- Decision made by the WhenBetween gate (part_000 lines 101-106), with s
and e the parsed start and end times and now the current time of day in the
requested location. -/
def whenBetweenDecision (s e now : CivilTime) : Bool :=
  if timeBefore e s then
    timeBefore s now || timeBefore now e
  else
    timeBefore s now && timeBefore now e

/-- Follows the words of the spec for the WhenBetween gate: membership of
now in the half-open interval from s to e, wrapping past midnight when e is
before s, so that now equal to s yields true. -/
def whenBetweenSpec (s e now : CivilTime) : Bool :=
  if timeBefore e s then
    !timeBefore now s || timeBefore now e
  else
    !timeBefore now s && timeBefore now e

/-- Total number of nanoseconds since midnight represented by a time. -/
def toNanos (t : CivilTime) : Int :=
  ((t.hour * 60 + t.minute) * 60 + t.second) * 1000000000 + t.nanosecond

/-- Field ranges guaranteed for any time of day produced by
civil.ParseTime or civil.TimeOf. -/
def validTime (t : CivilTime) : Prop :=
  0 ≤ t.minute ∧ t.minute < 60 ∧ 0 ≤ t.second ∧ t.second < 60 ∧
    0 ≤ t.nanosecond ∧ t.nanosecond < 1000000000

instance (t : CivilTime) : Decidable (validTime t) := by
  unfold validTime; infer_instance

/-- Model of client.Tag as referenced by the rules package: a remote
identifier. -/
structure Tag where
  gid : String
deriving DecidableEq

/-- Model of client.User as referenced by the rules package. -/
structure User where
  gid : String
deriving DecidableEq

/-- Model of client.Section (client/section.go lines 6-9). -/
structure Section where
  gid : String
  name : String
deriving DecidableEq

/-- Model of client.Task restricted to the fields the rules package reads:
GID, AssigneeSection and ParsedHTMLNotes. -/
structure Task where
  gid : String
  assigneeSection : Option Section
  parsedHTMLNotes : Node
deriving DecidableEq

/-- Calendar dates abstracted as day ordinals; civil.Date arithmetic is
library code outside src/, and AddDays is modelled as adding the number of
days to the ordinal. -/
structure Date where
  ordinal : Int
deriving DecidableEq

def addDays (d : Date) (n : Int) : Date := ⟨d.ordinal + n⟩

/-- Errors produced by the rules package, one constructor per fmt.Errorf
call site: multipleClauses f is the message that multiple clauses set
field f; tagNotFound and sectionNotFound name the unresolvable name;
missingAssignee is the safety-net filter error; remote stands for an error
returned by the client library. -/
inductive Err where
  | multipleClauses (field : String)
  | tagNotFound (name : String)
  | sectionNotFound (name : String)
  | missingAssignee (gid : String)
  | remote (msg : String)
deriving DecidableEq

/-- Model of client.SearchQuery restricted to the fields the rules package
sets: every field starts at its zero value for each iteration. -/
structure SearchQuery where
  assigneeAny : List User := []
  sectionsAny : List Section := []
  tagsAny : List Tag := []
  tagsNot : List Tag := []
  dueOn : Option Date := none
  dueAfter : Option Date := none
  dueBefore : Option Date := none
  due : Option Bool := none
  completed : Option Bool := none
deriving DecidableEq

/-- Model of the mutator installed by DueInDays (part_000 lines 184-197);
today stands for civil.DateOf(time.Now()). On error the query is returned
unchanged. -/
def dueInDays (today : Date) (days : Int) (q : SearchQuery) :
    SearchQuery × Option Err :=
  if q.dueOn.isSome then (q, some (Err.multipleClauses "DueOn"))
  else ({q with dueOn := some (addDays today days)}, none)

/-- Model of the mutator installed by DueInAtLeastDays (part_000 lines
199-212). -/
def dueInAtLeastDays (today : Date) (days : Int) (q : SearchQuery) :
    SearchQuery × Option Err :=
  if q.dueAfter.isSome then (q, some (Err.multipleClauses "DueAfter"))
  else ({q with dueAfter := some (addDays today days)}, none)

/-- Model of the mutator installed by DueInAtMostDays (part_000 lines
214-227). -/
def dueInAtMostDays (today : Date) (days : Int) (q : SearchQuery) :
    SearchQuery × Option Err :=
  if q.dueBefore.isSome then (q, some (Err.multipleClauses "DueBefore"))
  else ({q with dueBefore := some (addDays today days)}, none)

/-- Model of the mutator installed by OnlyIncomplete (part_000 lines
229-240); client.FALSE is a pointer to false. -/
def onlyIncomplete (q : SearchQuery) : SearchQuery × Option Err :=
  if q.completed.isSome then (q, some (Err.multipleClauses "Completed"))
  else ({q with completed := some false}, none)

/-- Model of the mutator installed by OnlyComplete (part_000 lines
242-253). -/
def onlyComplete (q : SearchQuery) : SearchQuery × Option Err :=
  if q.completed.isSome then (q, some (Err.multipleClauses "Completed"))
  else ({q with completed := some true}, none)

/-- Model of the mutator installed by WithoutDue (part_000 lines 316-329). -/
def withoutDue (q : SearchQuery) : SearchQuery × Option Err :=
  if q.due.isSome then (q, some (Err.multipleClauses "Due"))
  else ({q with due := some false}, none)

/-- Name-resolution loop of WithTagsAnyOf (part_000 lines 266-273):
appends each resolved tag to TagsAny in order, stopping with a not-found
error at the first unresolvable name; tagsByName stands for the mapping
returned by GetTagsByName. -/
def addTagsAny (tagsByName : String → Option Tag) :
    List String → SearchQuery → SearchQuery × Option Err
  | [], q => (q, none)
  | n :: rest, q =>
    match tagsByName n with
    | none => (q, some (Err.tagNotFound n))
    | some t => addTagsAny tagsByName rest {q with tagsAny := q.tagsAny ++ [t]}

/-- Model of the mutator installed by WithTagsAnyOf (part_000 lines
255-279). -/
def withTagsAnyOf (tagsByName : String → Option Tag) (names : List String)
    (q : SearchQuery) : SearchQuery × Option Err :=
  if q.tagsAny.length > 0 then (q, some (Err.multipleClauses "TagsAny"))
  else addTagsAny tagsByName names q

/-- Name-resolution loop of WithoutTagsAnyOf (part_000 lines 292-299). -/
def addTagsNot (tagsByName : String → Option Tag) :
    List String → SearchQuery → SearchQuery × Option Err
  | [], q => (q, none)
  | n :: rest, q =>
    match tagsByName n with
    | none => (q, some (Err.tagNotFound n))
    | some t => addTagsNot tagsByName rest {q with tagsNot := q.tagsNot ++ [t]}

/-- Model of the mutator installed by WithoutTagsAnyOf (part_000 lines
281-305). -/
def withoutTagsAnyOf (tagsByName : String → Option Tag) (names : List String)
    (q : SearchQuery) : SearchQuery × Option Err :=
  if q.tagsNot.length > 0 then (q, some (Err.multipleClauses "TagsNot"))
  else addTagsNot tagsByName names q

/-- Model of GetSectionsByName (client/section.go lines 49-61) applied to
the section list fetched for the project: the map is built by inserting
each section keyed by its name, in list order, later insertions
overwriting earlier ones. -/
def getSectionsByName (secs : List Section) : String → Option Section :=
  secs.foldl (fun m sec => fun name => if name = sec.name then some sec else m name)
    (fun _ => none)

/-- Model of GetSectionByName (client/section.go lines 63-75). -/
def getSectionByName (secs : List Section) (name : String) :
    Except Err Section :=
  match getSectionsByName secs name with
  | some sec => .ok sec
  | none => .error (Err.sectionNotFound name)

/-- Observable steps of one call to exec: which gate, query mutator, task
filter and task actor functions were invoked (by declaration index, and
for filters and actors on which task), and whether the search ran. Calls
into the remote collaborator are side effects; the trace of invocations is
the model of those effects. -/
inductive Event where
  | gateEval (i : Nat)
  | mutatorRun (i : Nat)
  | searchRun
  | filterEval (t : Task) (i : Nat)
  | actorRun (t : Task) (i : Nat)
deriving DecidableEq

/-- Environment of one exec call (part_000 lines 413-475): the outcome of
the workspace-client getter, the outcome each gate would produce this
iteration, the installed query mutators, the search results, the installed
task filters and the outcome each task actor would produce. -/
structure Env where
  getWorkspaceClient : Except Err Unit
  gates : List (Except Err Bool)
  queryMutators : List (SearchQuery → SearchQuery × Option Err)
  search : SearchQuery → Except Err (List Task)
  taskFilters : List (SearchQuery → Task → Except Err Bool)
  taskActors : List (Task → Except Err Unit)

/-- Gate loop of exec (part_000 lines 419-428), numbering gates from i:
evaluates gates in order, stopping at the first error or false result. -/
def gatePhase : List (Except Err Bool) → Nat → List Event × Except Err Bool
  | [], _ => ([], .ok true)
  | g :: rest, i =>
    match g with
    | .error e => ([.gateEval i], .error e)
    | .ok false => ([.gateEval i], .ok false)
    | .ok true =>
      let (tr, r) := gatePhase rest (i + 1)
      (.gateEval i :: tr, r)

/-- Mutator loop of exec (part_000 lines 432-437): threads the query
through the mutators in order, stopping at the first error. -/
def mutatorPhase : List (SearchQuery → SearchQuery × Option Err) → Nat →
    SearchQuery → List Event × Except Err SearchQuery
  | [], _, q => ([], .ok q)
  | m :: rest, i, q =>
    match m q with
    | (_, some e) => ([.mutatorRun i], .error e)
    | (q2, none) =>
      let (tr, r) := mutatorPhase rest (i + 1) q2
      (.mutatorRun i :: tr, r)

/-- Filter loop for one task (part_000 lines 448-458), numbering filters
from i: the first false filter short-circuits the chain; a filter error
aborts exec. -/
def filterChain (q : SearchQuery) (t : Task) :
    List (SearchQuery → Task → Except Err Bool) → Nat →
    List Event × Except Err Bool
  | [], _ => ([], .ok true)
  | f :: rest, i =>
    match f q t with
    | .error e => ([.filterEval t i], .error e)
    | .ok false => ([.filterEval t i], .ok false)
    | .ok true =>
      let (tr, r) := filterChain q t rest (i + 1)
      (.filterEval t i :: tr, r)

/-- Task-filtering loop of exec (part_000 lines 444-463): keeps the tasks
whose whole filter chain says true, in search order. -/
def filterPhase (filters : List (SearchQuery → Task → Except Err Bool))
    (q : SearchQuery) : List Task → List Event × Except Err (List Task)
  | [] => ([], .ok [])
  | t :: rest =>
    match filterChain q t filters 0 with
    | (tr, .error e) => (tr, .error e)
    | (tr, .ok inc) =>
      match filterPhase filters q rest with
      | (tr2, .error e) => (tr ++ tr2, .error e)
      | (tr2, .ok kept) => (tr ++ tr2, .ok (if inc then t :: kept else kept))

/-- Actor loop for one task (part_000 lines 466-471), numbering actors
from i: runs the actors in declaration order, stopping at the first
error. -/
def actorChain (t : Task) :
    List (Task → Except Err Unit) → Nat → List Event × Except Err Unit
  | [], _ => ([], .ok ())
  | a :: rest, i =>
    match a t with
    | .error e => ([.actorRun t i], .error e)
    | .ok _ =>
      let (tr, r) := actorChain t rest (i + 1)
      (.actorRun t i :: tr, r)

/-- Task loop of exec (part_000 lines 465-472): runs the whole actor chain
for each task in order; the first actor error aborts the remaining
tasks. -/
def actorPhase (acts : List (Task → Except Err Unit)) :
    List Task → List Event × Except Err Unit
  | [] => ([], .ok ())
  | t :: rest =>
    match actorChain t acts 0 with
    | (tr, .error e) => (tr, .error e)
    | (tr, .ok _) =>
      let (tr2, r) := actorPhase acts rest
      (tr ++ tr2, r)

/-- Stages of exec after the gates have all passed (part_000 lines
430-474): build the query, search, filter, act. -/
def execFromQuery (env : Env) : List Event × Except Err Unit :=
  match mutatorPhase env.queryMutators 0 {} with
  | (tr2, .error e) => (tr2, .error e)
  | (tr2, .ok q) =>
    match env.search q with
    | .error e => (tr2 ++ [.searchRun], .error e)
    | .ok tasks =>
      match filterPhase env.taskFilters q tasks with
      | (tr3, .error e) => (tr2 ++ [.searchRun] ++ tr3, .error e)
      | (tr3, .ok kept) =>
        let (tr4, r) := actorPhase env.taskActors kept
        (tr2 ++ [.searchRun] ++ tr3 ++ tr4, r)

/-- Model of exec (part_000 lines 413-475): one rule iteration, returning
the trace of stage invocations together with the iteration result. -/
def exec (env : Env) : List Event × Except Err Unit :=
  match env.getWorkspaceClient with
  | .error e => ([], .error e)
  | .ok _ =>
    match gatePhase env.gates 0 with
    | (tr, .error e) => (tr, .error e)
    | (tr, .ok false) => (tr, .ok ())
    | (tr, .ok true) =>
      let (tr2, r) := execFromQuery env
      (tr ++ tr2, r)

/-- Pairs each list element with its index, counting from i. -/
def idxFrom (i : Nat) : List α → List (Nat × α)
  | [] => []
  | a :: rest => (i, a) :: idxFrom (i + 1) rest

/-- Reference behaviour of a sequence of effectful calls with fail-fast
semantics: the calls before and including the first error happen, nothing
after it does, and the first error is the overall result. -/
def cutAtError : List (Task × Nat × Except Err Unit) → List Event × Except Err Unit
  | [] => ([], .ok ())
  | (t, i, r) :: rest =>
    match r with
    | .error e => ([.actorRun t i], .error e)
    | .ok _ =>
      let (tr, res) := cutAtError rest
      (.actorRun t i :: tr, res)

/-- Gate events for n gates evaluated starting at index i. -/
def gateEvents (i : Nat) : Nat → List Event
  | 0 => []
  | n + 1 => Event.gateEval i :: gateEvents (i + 1) n

/-- Tag mapping with a single tag named x, for concrete instantiations. -/
def tagEnv1 : String → Option Tag :=
  fun n => if n = "x" then some ⟨"t1"⟩ else none

/-- Query with no constraint set, as built at the top of each iteration. -/
def qEmpty : SearchQuery := {}

/-- Query in which every singular-valued constraint is already set. -/
def qFull : SearchQuery :=
  { dueOn := some ⟨0⟩, dueAfter := some ⟨0⟩, dueBefore := some ⟨0⟩,
    due := some false, completed := some false }

/-- Text node whose data is the three-line example of the spec: a line
with a URL in the middle, a line with no URL, and a line that is a bare
URL. -/
def c6input : Node :=
  .mk NType.textNode []
    "see http://a.example\nand not-a-url\nhttps://b.example".toList [] .null .null

/-- Tree actually produced by the linkifier on c6input: the original node
with empty data followed by one node per line with explicit newline text
nodes between them; only the third line, the one beginning with a scheme
prefix, is an anchor, and its href equals its own text. -/
def c6output : Node :=
  .mk NType.textNode [] [] [] .null
    (.mk NType.textNode [] "see http://a.example".toList [] .null
      (.mk NType.textNode [] ['\n'] [] .null
        (.mk NType.textNode [] "and not-a-url".toList [] .null
          (.mk NType.textNode [] ['\n'] [] .null
            (.mk NType.elementNode aStr aStr
              [⟨hrefStr, "https://b.example".toList⟩]
              (.mk NType.textNode [] "https://b.example".toList [] .null .null)
              .null)))))

/-- Tree the claim describes for c6input, with lines 1 and 3 both turned
into anchors wrapping their own text. -/
def c6claimedOutput : Node :=
  .mk NType.textNode [] [] [] .null
    (.mk NType.elementNode aStr aStr
      [⟨hrefStr, "see http://a.example".toList⟩]
      (.mk NType.textNode [] "see http://a.example".toList [] .null .null)
      (.mk NType.textNode [] ['\n'] [] .null
        (.mk NType.textNode [] "and not-a-url".toList [] .null
          (.mk NType.textNode [] ['\n'] [] .null
            (.mk NType.elementNode aStr aStr
              [⟨hrefStr, "https://b.example".toList⟩]
              (.mk NType.textNode [] "https://b.example".toList [] .null .null)
              .null)))))

/-- Sample tasks for concrete executor runs. -/
def tk1 : Task := ⟨"101", none, .null⟩

def tk2 : Task := ⟨"102", none, .null⟩

/-- Actor list whose second actor always fails. -/
def acts0 : List (Task → Except Err Unit) :=
  [fun _ => .ok (), fun t => .error (Err.remote t.gid)]

/-- Environment whose second gate says no. -/
def env0 : Env :=
  { getWorkspaceClient := .ok ()
    gates := [.ok true, .ok false]
    queryMutators := []
    search := fun _ => .ok []
    taskFilters := []
    taskActors := [] }

/-! Theorems. -/

theorem timeBefore_iff_toNanos (t1 t2 : CivilTime) (h1 : validTime t1)
    (h2 : validTime t2) : timeBefore t1 t2 = true ↔ toNanos t1 < toNanos t2 := by
  obtain ⟨a1, b1, c1, d1, e1, f1⟩ := h1
  obtain ⟨a2, b2, c2, d2, e2, f2⟩ := h2
  simp only [timeBefore, toNanos, Bool.or_eq_true, Bool.and_eq_true,
    decide_eq_true_eq, beq_iff_eq]
  omega

/-- C2: the WhenBetween gate is an order test on times-of-day, but the
interval is open at start, not half-open: for valid times it is true iff
start < now < end numerically, and when end is strictly before start it
wraps past midnight and is true iff now > start or now < end; now equal to
start yields false. -/
theorem c2_gate_interval (s e now : CivilTime) (hs : validTime s)
    (he : validTime e) (hn : validTime now) :
    whenBetweenDecision s e now = true ↔
      (if toNanos e < toNanos s then
        toNanos s < toNanos now ∨ toNanos now < toNanos e
      else
        toNanos s < toNanos now ∧ toNanos now < toNanos e) := by
  have hes := timeBefore_iff_toNanos e s he hs
  have hsn := timeBefore_iff_toNanos s now hs hn
  have hne := timeBefore_iff_toNanos now e hn he
  rw [whenBetweenDecision]
  rcases Bool.eq_false_or_eq_true (timeBefore e s) with hb | hb
  · have hlt : toNanos e < toNanos s := hes.mp hb
    rw [hb, if_pos hlt]
    simp [hsn, hne]
  · have hlt : ¬ toNanos e < toNanos s := by rw [← hes, hb]; simp
    rw [hb, if_neg hlt]
    simp [hsn, hne]

/-- C2 counterexample: at start 09:00:00, end 17:00:00 and now equal to
start, membership in the half-open interval described by the spec holds,
but the gate decision of the code is false: the code tests
timeBefore(start, now), which is strict. -/
theorem c2_counterexample :
    whenBetweenSpec ⟨9, 0, 0, 0⟩ ⟨17, 0, 0, 0⟩ ⟨9, 0, 0, 0⟩ = true ∧
    whenBetweenDecision ⟨9, 0, 0, 0⟩ ⟨17, 0, 0, 0⟩ ⟨9, 0, 0, 0⟩ = false := by
  decide

theorem c2_gate_interval_witness :
    whenBetweenDecision ⟨22, 0, 0, 0⟩ ⟨6, 0, 0, 0⟩ ⟨23, 30, 0, 0⟩ = true ↔
      (if toNanos ⟨6, 0, 0, 0⟩ < toNanos ⟨22, 0, 0, 0⟩ then
        toNanos ⟨22, 0, 0, 0⟩ < toNanos ⟨23, 30, 0, 0⟩ ∨
          toNanos ⟨23, 30, 0, 0⟩ < toNanos ⟨6, 0, 0, 0⟩
      else
        toNanos ⟨22, 0, 0, 0⟩ < toNanos ⟨23, 30, 0, 0⟩ ∧
          toNanos ⟨23, 30, 0, 0⟩ < toNanos ⟨6, 0, 0, 0⟩) :=
  c2_gate_interval ⟨22, 0, 0, 0⟩ ⟨6, 0, 0, 0⟩ ⟨23, 30, 0, 0⟩
    (by decide) (by decide) (by decide)

/-- C9: every singular-valued mutator fails with a multiple-clauses error
when its field is already set, returning the query unchanged; in
particular applying OnlyIncomplete to a fresh query succeeds and applying
it a second time fails, leaving the previously set value in place. -/
theorem c9_singular_mutators (q : SearchQuery) (today : Date) (days : Int) :
    (q.completed = none →
      onlyIncomplete q = ({q with completed := some false}, none) ∧
      onlyIncomplete {q with completed := some false} =
        ({q with completed := some false}, some (Err.multipleClauses "Completed"))) ∧
    (q.completed.isSome = true →
      onlyIncomplete q = (q, some (Err.multipleClauses "Completed"))) ∧
    (q.completed.isSome = true →
      onlyComplete q = (q, some (Err.multipleClauses "Completed"))) ∧
    (q.dueOn.isSome = true →
      dueInDays today days q = (q, some (Err.multipleClauses "DueOn"))) ∧
    (q.dueAfter.isSome = true →
      dueInAtLeastDays today days q = (q, some (Err.multipleClauses "DueAfter"))) ∧
    (q.dueBefore.isSome = true →
      dueInAtMostDays today days q = (q, some (Err.multipleClauses "DueBefore"))) ∧
    (q.due.isSome = true →
      withoutDue q = (q, some (Err.multipleClauses "Due"))) := by
  refine ⟨?_, ?_, ?_, ?_, ?_, ?_, ?_⟩ <;> intro h <;>
    simp [onlyIncomplete, onlyComplete, dueInDays, dueInAtLeastDays,
      dueInAtMostDays, withoutDue, h]

theorem c9_singular_mutators_witness :
    (onlyIncomplete qEmpty = ({qEmpty with completed := some false}, none) ∧
      onlyIncomplete {qEmpty with completed := some false} =
        ({qEmpty with completed := some false},
          some (Err.multipleClauses "Completed"))) ∧
    onlyIncomplete qFull = (qFull, some (Err.multipleClauses "Completed")) ∧
    onlyComplete qFull = (qFull, some (Err.multipleClauses "Completed")) ∧
    dueInDays ⟨0⟩ 3 qFull = (qFull, some (Err.multipleClauses "DueOn")) ∧
    dueInAtLeastDays ⟨0⟩ 3 qFull = (qFull, some (Err.multipleClauses "DueAfter")) ∧
    dueInAtMostDays ⟨0⟩ 3 qFull = (qFull, some (Err.multipleClauses "DueBefore")) ∧
    withoutDue qFull = (qFull, some (Err.multipleClauses "Due")) :=
  ⟨(c9_singular_mutators qEmpty ⟨0⟩ 3).1 rfl,
    (c9_singular_mutators qFull ⟨0⟩ 3).2.1 rfl,
    (c9_singular_mutators qFull ⟨0⟩ 3).2.2.1 rfl,
    (c9_singular_mutators qFull ⟨0⟩ 3).2.2.2.1 rfl,
    (c9_singular_mutators qFull ⟨0⟩ 3).2.2.2.2.1 rfl,
    (c9_singular_mutators qFull ⟨0⟩ 3).2.2.2.2.2.1 rfl,
    (c9_singular_mutators qFull ⟨0⟩ 3).2.2.2.2.2.2 rfl⟩

theorem addTagsAny_resolved (tagsByName : String → Option Tag) :
    ∀ (names : List String) (q : SearchQuery),
      (∀ n ∈ names, (tagsByName n).isSome = true) →
      addTagsAny tagsByName names q =
        ({q with tagsAny := q.tagsAny ++ names.filterMap tagsByName}, none) := by
  intro names
  induction names with
  | nil => intro q h; simp [addTagsAny]
  | cons n rest ih =>
    intro q h
    obtain ⟨t, ht⟩ := Option.isSome_iff_exists.mp (h n (by simp))
    simp only [addTagsAny, ht]
    rw [ih _ (fun m hm => h m (by simp [hm]))]
    simp [List.filterMap_cons, ht]

/-- C3 counterexample: with a tag mapping resolving the name x, applying
WithTagsAnyOf for x to a fresh query succeeds, and applying the same
mutator a second time fails with a multiple-clauses error instead of
accumulating, because the mutator rejects a query whose TagsAny set is
already non-empty. -/
theorem c3_counterexample :
    withTagsAnyOf tagEnv1 ["x"] qEmpty = ({qEmpty with tagsAny := [⟨"t1"⟩]}, none) ∧
    withTagsAnyOf tagEnv1 ["x"] {qEmpty with tagsAny := [⟨"t1"⟩]} =
      ({qEmpty with tagsAny := [⟨"t1"⟩]}, some (Err.multipleClauses "TagsAny")) := by
  constructor <;> rfl

/-- C3: tag constraints are not additive across mutators: WithTagsAnyOf
(respectively WithoutTagsAnyOf) fails with a multiple-clauses error
whenever the TagsAny (respectively TagsNot) set of the query is already
non-empty, leaving the query unchanged; resolved names accumulate only
within a single application, which succeeds exactly when the set was empty
and every name resolves. -/
theorem c3_tags_not_additive (tagsByName : String → Option Tag)
    (names : List String) (q : SearchQuery) :
    (q.tagsAny ≠ [] →
      withTagsAnyOf tagsByName names q = (q, some (Err.multipleClauses "TagsAny"))) ∧
    (q.tagsNot ≠ [] →
      withoutTagsAnyOf tagsByName names q = (q, some (Err.multipleClauses "TagsNot"))) ∧
    (q.tagsAny = [] → (∀ n ∈ names, (tagsByName n).isSome = true) →
      withTagsAnyOf tagsByName names q =
        ({q with tagsAny := names.filterMap tagsByName}, none)) := by
  refine ⟨?_, ?_, ?_⟩
  · intro h
    rw [withTagsAnyOf, if_pos (by simpa using List.length_pos.mpr h)]
  · intro h
    rw [withoutTagsAnyOf, if_pos (by simpa using List.length_pos.mpr h)]
  · intro h hall
    rw [withTagsAnyOf, if_neg (by simp [h]), addTagsAny_resolved _ _ _ hall]
    simp [h]

theorem c3_tags_not_additive_witness :
    withTagsAnyOf tagEnv1 ["x"] {qEmpty with tagsAny := [⟨"t1"⟩]} =
      ({qEmpty with tagsAny := [⟨"t1"⟩]}, some (Err.multipleClauses "TagsAny")) ∧
    withoutTagsAnyOf tagEnv1 ["x"] {qEmpty with tagsNot := [⟨"t1"⟩]} =
      ({qEmpty with tagsNot := [⟨"t1"⟩]}, some (Err.multipleClauses "TagsNot")) ∧
    withTagsAnyOf tagEnv1 ["x"] qEmpty =
      ({qEmpty with tagsAny := ["x"].filterMap tagEnv1}, none) :=
  ⟨(c3_tags_not_additive tagEnv1 ["x"] _).1 (by simp),
    (c3_tags_not_additive tagEnv1 ["x"] _).2.1 (by simp),
    (c3_tags_not_additive tagEnv1 ["x"] qEmpty).2.2 rfl
      (by intro n hn; simp at hn; subst hn; rfl)⟩

theorem sectionsFold_eq (secs : List Section) :
    ∀ (m : String → Option Section) (name : String),
      (secs.foldl
        (fun m sec => fun nm => if nm = sec.name then some sec else m nm) m) name =
        match secs.reverse.find? (fun sec => sec.name == name) with
        | some sec => some sec
        | none => m name := by
  induction secs with
  | nil => intro m name; simp
  | cons sec rest ih =>
    intro m name
    rw [List.foldl_cons, ih, List.reverse_cons, List.find?_append]
    cases h : rest.reverse.find? (fun s => s.name == name) with
    | some s => simp [h, Option.or]
    | none =>
      simp only [h, Option.none_or]
      by_cases hn : sec.name = name
      · simp [List.find?_cons, hn]
      · have hbeq : (sec.name == name) = false := by simpa using hn
        simp only [List.find?_cons, hbeq, List.find?_nil]
        rw [if_neg (fun h' => hn h'.symm)]

/-- C10: lookup in the map built by GetSectionsByName resolves a name to
the last section of that name in list order, formalised as a search
through the reversed section list, so earlier same-named sections are
silently shadowed; GetSectionByName therefore resolves exactly that last
section and errors only when no section has the name. -/
theorem c10_last_section_wins (secs : List Section) (name : String) :
    getSectionsByName secs name =
      secs.reverse.find? (fun sec => sec.name == name) ∧
    getSectionByName secs name =
      (match secs.reverse.find? (fun sec => sec.name == name) with
       | some sec => Except.ok sec
       | none => Except.error (Err.sectionNotFound name)) := by
  have h := sectionsFold_eq secs (fun _ => none) name
  constructor
  · rw [getSectionsByName, h]
    cases secs.reverse.find? (fun sec => sec.name == name) <;> rfl
  · rw [getSectionByName, getSectionsByName, h]
    cases secs.reverse.find? (fun sec => sec.name == name) <;> rfl

theorem nodeHasUnlinkedURL_mk (t : NType) (da d : GoStr) (a : List HtmlAttr)
    (x y : Node) :
    nodeHasUnlinkedURL (.mk t da d a x y) =
      (t == NType.textNode && (splitNewline d).any lineHasURL) := rfl

theorem nilAny : (splitNewline []).any lineHasURL = false := by decide

theorem nlAny : (splitNewline ['\n']).any lineHasURL = false := by decide

theorem fix_anchor (da : GoStr) (a : List HtmlAttr) (fc ns : Node) :
    fixUnlinkedURL (.mk NType.elementNode da aStr a fc ns) =
      .mk NType.elementNode da aStr a fc ns := by
  simp [fixUnlinkedURL]

theorem convertRunNode_neg (t : NType) (da d : GoStr) (a : List HtmlAttr)
    (fc ns : Node) (h : (t == NType.textNode && (splitNewline d).any lineHasURL) = false) :
    convertRunNode (.mk t da d a fc ns) = .mk t da d a fc ns := by
  simp only [convertRunNode, nodeHasUnlinkedURL_mk, h]
  rfl

theorem convertRunNode_pos (t : NType) (da d : GoStr) (a : List HtmlAttr)
    (fc ns : Node) (h : (t == NType.textNode && (splitNewline d).any lineHasURL) = true) :
    convertRunNode (.mk t da d a fc ns) =
      .mk NType.elementNode aStr aStr (a ++ [⟨hrefStr, d⟩])
        (.mk NType.textNode [] d [] .null .null) ns := by
  simp only [convertRunNode, nodeHasUnlinkedURL_mk, h]
  rfl

theorem linkedRun_fix (ns : Node) (hns : fixUnlinkedURL ns = ns) :
    ∀ L : List GoStr, fixUnlinkedURL (linkedRun L ns) = linkedRun L ns := by
  intro L
  induction L with
  | nil => simpa [linkedRun] using hns
  | cons l rest ih =>
    cases rest with
    | nil =>
      rw [show linkedRun [l] ns =
        convertRunNode (.mk NType.textNode [] l [] .null ns) from rfl]
      cases hl : (splitNewline l).any lineHasURL with
      | true =>
        rw [convertRunNode_pos _ _ _ _ _ _ (by simp [hl])]
        exact fix_anchor _ _ _ _
      | false =>
        rw [convertRunNode_neg _ _ _ _ _ _ (by simp [hl])]
        simp [fixUnlinkedURL, nodeHasUnlinkedURL_mk, hl, hns, aStr]
    | cons l2 rest2 =>
      rw [show linkedRun (l :: l2 :: rest2) ns =
        convertRunNode (.mk NType.textNode [] l [] .null
          (convertRunNode (.mk NType.textNode [] ['\n'] [] .null
            (linkedRun (l2 :: rest2) ns)))) from rfl]
      rw [convertRunNode_neg NType.textNode [] ['\n'] [] Node.null
        (linkedRun (l2 :: rest2) ns) (by decide)]
      cases hl : (splitNewline l).any lineHasURL with
      | true =>
        rw [convertRunNode_pos NType.textNode [] l [] Node.null
          (.mk NType.textNode [] ['\n'] [] Node.null (linkedRun (l2 :: rest2) ns))
          (by simp only [beq_self_eq_true, Bool.true_and]; exact hl)]
        exact fix_anchor _ _ _ _
      | false =>
        rw [convertRunNode_neg NType.textNode [] l [] Node.null
          (.mk NType.textNode [] ['\n'] [] Node.null (linkedRun (l2 :: rest2) ns))
          (by simp only [beq_self_eq_true, Bool.true_and]; exact hl)]
        simp [fixUnlinkedURL, nodeHasUnlinkedURL_mk, hl, nlAny, ih, aStr]

theorem fix_eq_of_not_has : ∀ n : Node, hasUnlinkedURL n = false → fixUnlinkedURL n = n := by
  intro n
  induction n with
  | null => intro _; rfl
  | mk t da d a fc ns ihfc ihns =>
    intro h
    by_cases hanchor : t = NType.elementNode ∧ d = aStr
    · obtain ⟨ht, hd⟩ := hanchor
      subst ht; subst hd
      exact fix_anchor da a fc ns
    · rw [hasUnlinkedURL, if_neg hanchor] at h
      simp only [Bool.or_eq_false_iff] at h
      obtain ⟨⟨hn, h1⟩, h2⟩ := h
      rw [fixUnlinkedURL, if_neg hanchor]
      simp only [ihfc h1, ihns h2, hn, Bool.false_eq_true, if_false]

theorem fix_ne_of_has : ∀ n : Node, hasUnlinkedURL n = true → fixUnlinkedURL n ≠ n := by
  intro n
  induction n with
  | null => intro h; simp [hasUnlinkedURL] at h
  | mk t da d a fc ns ihfc ihns =>
    intro h
    by_cases hanchor : t = NType.elementNode ∧ d = aStr
    · rw [hasUnlinkedURL, if_pos hanchor] at h
      exact absurd h (by simp)
    · rw [hasUnlinkedURL, if_neg hanchor] at h
      rw [fixUnlinkedURL, if_neg hanchor]
      cases hn : nodeHasUnlinkedURL (.mk t da d a fc ns) with
      | true =>
        have hd : d ≠ [] := by
          intro hdnil
          rw [nodeHasUnlinkedURL_mk, hdnil, nilAny] at hn
          simp at hn
        have hcond : nodeHasUnlinkedURL
            (.mk t da d a (fixUnlinkedURL fc) (fixUnlinkedURL ns)) = true := hn
        simp only [hcond, if_true]
        rw [convertRunNode_neg _ _ _ _ _ _ (by simp [nilAny])]
        intro heq
        injection heq with h1 h2 h3 h4 h5 h6
        exact hd h3.symm
      | false =>
        have hcond : nodeHasUnlinkedURL
            (.mk t da d a (fixUnlinkedURL fc) (fixUnlinkedURL ns)) = false := hn
        simp only [hcond, Bool.false_eq_true, if_false]
        rw [nodeHasUnlinkedURL_mk] at hn
        rw [nodeHasUnlinkedURL_mk, hn] at h
        simp only [Bool.false_or, Bool.or_eq_true] at h
        intro heq
        injection heq with h1 h2 h3 h4 h5 h6
        rcases h with h | h
        · exact ihfc h h5
        · exact ihns h h6

/-- C4: the read-only predicate hasUnlinkedURL is true on a tree exactly
when fixUnlinkedURL would change it, the two traversals skipping the same
nodes (an anchor element stops both, for its subtree and its following
siblings alike). -/
theorem c4_detection_agreement (n : Node) :
    hasUnlinkedURL n = true ↔ fixUnlinkedURL n ≠ n := by
  constructor
  · exact fix_ne_of_has n
  · intro hne
    cases hb : hasUnlinkedURL n with
    | true => rfl
    | false => exact absurd (fix_eq_of_not_has n hb) hne

/-- C5: fixUnlinkedURL is idempotent: anchors created by the first pass
stop the second pass, per-line text nodes created by the first pass have
no scheme-prefixed line left, and the emptied original node has no data,
so a second pass changes nothing. -/
theorem c5_idempotent (n : Node) :
    fixUnlinkedURL (fixUnlinkedURL n) = fixUnlinkedURL n := by
  induction n with
  | null => rfl
  | mk t da d a fc ns ihfc ihns =>
    by_cases hanchor : t = NType.elementNode ∧ d = aStr
    · obtain ⟨ht, hd⟩ := hanchor
      subst ht; subst hd
      rw [fix_anchor, fix_anchor]
    · rw [fixUnlinkedURL, if_neg hanchor]
      cases hn : nodeHasUnlinkedURL
          (.mk t da d a (fixUnlinkedURL fc) (fixUnlinkedURL ns)) with
      | true =>
        simp only [hn, if_true]
        rw [convertRunNode_neg _ _ _ _ _ _ (by simp [nilAny])]
        have ht : t = NType.textNode := by
          have hh := hn
          simp only [nodeHasUnlinkedURL_mk, Bool.and_eq_true, beq_iff_eq] at hh
          exact hh.1
        subst ht
        rw [fixUnlinkedURL, if_neg (by simp [aStr])]
        simp only [ihfc, linkedRun_fix (fixUnlinkedURL ns) ihns,
          nodeHasUnlinkedURL_mk, nilAny, Bool.and_false, Bool.false_eq_true, if_false]
      | false =>
        simp only [hn, Bool.false_eq_true, if_false]
        rw [fixUnlinkedURL, if_neg hanchor]
        have hn2 : nodeHasUnlinkedURL
            (.mk t da d a (fixUnlinkedURL (fixUnlinkedURL fc))
              (fixUnlinkedURL (fixUnlinkedURL ns))) = false := hn
        simp only [ihfc, ihns, hn, Bool.false_eq_true, if_false]

/-- C1 counterexample: a paragraph whose first child is an anchor and
whose second child is a bare-URL text node is returned completely
unchanged by fixUnlinkedURL, although the text node is a maximal run of
bare-URL text outside the subtree of the anchor: the early return there
skips its following siblings, so the claim that such a node is still
converted is false. -/
theorem c1_counterexample :
    nodeHasUnlinkedURL (.mk NType.textNode [] "http://y.example".toList [] .null .null) = true ∧
    fixUnlinkedURL
      (.mk NType.elementNode [] ['p'] []
        (.mk NType.elementNode aStr aStr []
          (.mk NType.textNode [] "linked".toList [] .null .null)
          (.mk NType.textNode [] "http://y.example".toList [] .null .null))
        .null) =
      .mk NType.elementNode [] ['p'] []
        (.mk NType.elementNode aStr aStr []
          (.mk NType.textNode [] "linked".toList [] .null .null)
          (.mk NType.textNode [] "http://y.example".toList [] .null .null))
        .null := by
  constructor
  · rfl
  · decide

theorem splitNewline_mem_no_nl :
    ∀ (d : GoStr), ∀ l ∈ splitNewline d, '\n' ∉ l := by
  intro d
  induction d with
  | nil =>
    intro l hl
    simp only [splitNewline, List.mem_singleton] at hl
    subst hl
    simp
  | cons c rest ih =>
    intro l hl
    by_cases hc : c = '\n'
    · rw [splitNewline, if_pos hc] at hl
      rcases List.mem_cons.mp hl with h | h
      · subst h; simp
      · exact ih l h
    · rw [splitNewline, if_neg hc] at hl
      cases hsp : splitNewline rest with
      | nil =>
        rw [hsp] at hl
        simp only [List.mem_singleton] at hl
        subst hl
        intro hm
        simp only [List.mem_singleton] at hm
        exact hc hm.symm
      | cons l0 ls =>
        rw [hsp] at hl
        rcases List.mem_cons.mp hl with h | h
        · subst h
          intro hm
          rcases List.mem_cons.mp hm with h2 | h2
          · exact hc h2.symm
          · exact ih l0 (by rw [hsp]; exact List.mem_cons_self l0 ls) h2
        · exact ih l (by rw [hsp]; exact List.mem_cons_of_mem l0 h)

theorem splitNewline_eq_of_no_nl :
    ∀ (l : GoStr), '\n' ∉ l → splitNewline l = [l] := by
  intro l
  induction l with
  | nil => intro _; rfl
  | cons c rest ih =>
    intro h
    have hc : ¬ c = '\n' := fun hcc => h (by rw [hcc]; exact List.mem_cons_self _ _)
    have hrest : '\n' ∉ rest := fun hm => h (List.mem_cons_of_mem c hm)
    rw [splitNewline, if_neg hc, ih hrest]

theorem linkedRun_eq_runSpec :
    ∀ (L : List GoStr), (∀ l ∈ L, splitNewline l = [l]) →
      ∀ next : Node, linkedRun L next = runSpec L next := by
  intro L
  induction L with
  | nil => intro _ next; rfl
  | cons l rest ih =>
    intro hL next
    have hsp : splitNewline l = [l] := hL l (List.mem_cons_self _ _)
    cases rest with
    | nil =>
      rw [show linkedRun [l] next =
        convertRunNode (.mk NType.textNode [] l [] .null next) from rfl]
      rw [show runSpec [l] next = lineNodeSpec l next from rfl]
      cases hl : lineHasURL l with
      | true =>
        rw [convertRunNode_pos NType.textNode [] l [] Node.null next
          (by rw [hsp]; simp [hl])]
        simp [lineNodeSpec, hl]
      | false =>
        rw [convertRunNode_neg NType.textNode [] l [] Node.null next
          (by rw [hsp]; simp [hl])]
        simp [lineNodeSpec, hl]
    | cons l2 rest2 =>
      rw [show linkedRun (l :: l2 :: rest2) next =
        convertRunNode (.mk NType.textNode [] l [] .null
          (convertRunNode (.mk NType.textNode [] ['\n'] [] .null
            (linkedRun (l2 :: rest2) next)))) from rfl]
      rw [convertRunNode_neg NType.textNode [] ['\n'] [] Node.null
        (linkedRun (l2 :: rest2) next) (by decide)]
      rw [ih (fun x hx => hL x (List.mem_cons_of_mem l hx)) next]
      rw [show runSpec (l :: l2 :: rest2) next =
        lineNodeSpec l (lineNodeSpec ['\n'] (runSpec (l2 :: rest2) next)) from rfl]
      rw [show lineNodeSpec ['\n'] (runSpec (l2 :: rest2) next) =
        .mk NType.textNode [] ['\n'] [] .null (runSpec (l2 :: rest2) next) from by
          rw [lineNodeSpec, if_neg (by decide)]]
      cases hl : lineHasURL l with
      | true =>
        rw [convertRunNode_pos NType.textNode [] l [] Node.null
          (.mk NType.textNode [] ['\n'] [] .null (runSpec (l2 :: rest2) next))
          (by rw [hsp]; simp [hl])]
        simp [lineNodeSpec, hl]
      | false =>
        rw [convertRunNode_neg NType.textNode [] l [] Node.null
          (.mk NType.textNode [] ['\n'] [] .null (runSpec (l2 :: rest2) next))
          (by rw [hsp]; simp [hl])]
        simp [lineNodeSpec, hl]

/-- C1 (amended): fixUnlinkedURL stops at an existing anchor element,
returning it with its subtree and everything after it through NextSibling
untouched — so bare-URL text later in a sibling chain behind an anchor is
not converted. Every other node keeps all its fields, with its first child
and next sibling processed recursively, unless it is a text node one of
whose newline-separated lines begins with http:// or https://; such a
node has its data cleared and a per-line run spliced in before the
processed old sibling, and that run, for the lines of any split data,
equals the specification run: every scheme-prefixed line becomes an anchor
element wrapping that line with href equal to the line, every other line
stays a plain text node, and the newlines are re-inserted between
lines. -/
theorem c1_linkify_and_anchor_stop (t : NType) (da d : GoStr)
    (a : List HtmlAttr) (fc ns : Node) :
    fixUnlinkedURL (.mk NType.elementNode da aStr a fc ns) =
      .mk NType.elementNode da aStr a fc ns ∧
    (¬(t = NType.elementNode ∧ d = aStr) →
      nodeHasUnlinkedURL (.mk t da d a fc ns) = false →
      fixUnlinkedURL (.mk t da d a fc ns) =
        .mk t da d a (fixUnlinkedURL fc) (fixUnlinkedURL ns)) ∧
    ((splitNewline d).any lineHasURL = true →
      fixUnlinkedURL (.mk NType.textNode da d a fc ns) =
        .mk NType.textNode da [] a (fixUnlinkedURL fc)
          (linkedRun (splitNewline d) (fixUnlinkedURL ns))) ∧
    (∀ (e : GoStr) (next : Node),
      linkedRun (splitNewline e) next = runSpec (splitNewline e) next) := by
  refine ⟨fix_anchor da a fc ns, ?_, ?_, ?_⟩
  · intro hna hnh
    rw [fixUnlinkedURL, if_neg hna]
    have hcond : nodeHasUnlinkedURL
        (.mk t da d a (fixUnlinkedURL fc) (fixUnlinkedURL ns)) = false := hnh
    simp only [hcond, Bool.false_eq_true, if_false]
  · intro hd
    rw [fixUnlinkedURL, if_neg (by simp [aStr])]
    have hcond : nodeHasUnlinkedURL
        (.mk NType.textNode da d a (fixUnlinkedURL fc) (fixUnlinkedURL ns)) = true := by
      rw [nodeHasUnlinkedURL_mk]
      simp [hd]
    rw [if_pos hcond]
    exact convertRunNode_neg _ _ _ _ _ _ (by simp [nilAny])
  · intro e next
    exact linkedRun_eq_runSpec (splitNewline e)
      (fun l hl => splitNewline_eq_of_no_nl l (splitNewline_mem_no_nl e l hl)) next

/-- C1 amended witness at three concrete lines covering both schemes: an
anchor whose later sibling carries that bare-URL data is untouched; a
non-anchor element node with the same data descends without converting; a
text node with the same data is split with its data cleared; and the run
for that data equals the specification run. -/
theorem c1_linkify_and_anchor_stop_witness :
    (fixUnlinkedURL
      (.mk NType.elementNode [] aStr []
        (.mk NType.textNode [] "linked".toList [] .null .null)
        (.mk NType.textNode [] urlLines [] .null .null)) =
      .mk NType.elementNode [] aStr []
        (.mk NType.textNode [] "linked".toList [] .null .null)
        (.mk NType.textNode [] urlLines [] .null .null)) ∧
    (fixUnlinkedURL (.mk NType.elementNode [] urlLines [] .null .null) =
      .mk NType.elementNode [] urlLines [] .null .null) ∧
    (fixUnlinkedURL (.mk NType.textNode [] urlLines [] .null .null) =
      .mk NType.textNode [] [] [] .null (linkedRun (splitNewline urlLines) .null)) ∧
    (linkedRun (splitNewline urlLines) .null = runSpec (splitNewline urlLines) .null) :=
  ⟨(c1_linkify_and_anchor_stop NType.elementNode [] urlLines []
      (.mk NType.textNode [] "linked".toList [] .null .null)
      (.mk NType.textNode [] urlLines [] .null .null)).1,
    (c1_linkify_and_anchor_stop NType.elementNode [] urlLines [] .null .null).2.1
      (by decide) rfl,
    (c1_linkify_and_anchor_stop NType.elementNode [] urlLines [] .null .null).2.2.1
      (by decide),
    (c1_linkify_and_anchor_stop NType.elementNode [] urlLines [] .null .null).2.2.2
      urlLines .null⟩

/-- C6 counterexample: on the three-line example the linkifier produces
c6output, in which line 1 ("see http://a.example") stays a plain text node
because it does not begin with a scheme prefix; the tree the claim
describes, with lines 1 and 3 both anchors, is not produced. -/
theorem c6_counterexample :
    fixUnlinkedURL c6input = c6output ∧ fixUnlinkedURL c6input ≠ c6claimedOutput := by
  constructor
  · decide
  · decide

/-- C6 (amended): the three-line example is split into three per-line
nodes with the two newline text nodes preserved between them; only line 3
becomes an anchor, with href equal to its own text, lines 1 and 2 remain
plain text, and the concatenated text content of the result equals the
original text, so serialization reconstructs the line breaks exactly. -/
theorem c6_line_sensitivity :
    fixUnlinkedURL c6input = c6output ∧
    textContent c6output = textContent c6input := by
  constructor
  · decide
  · decide

theorem actorChain_eq_cutAtError (t : Task) :
    ∀ (acts : List (Task → Except Err Unit)) (i : Nat),
      actorChain t acts i = cutAtError ((idxFrom i acts).map fun p => (t, p.1, p.2 t)) := by
  intro acts
  induction acts with
  | nil => intro i; rfl
  | cons a rest ih =>
    intro i
    cases h : a t with
    | error e => simp [actorChain, idxFrom, cutAtError, h]
    | ok u => simp [actorChain, idxFrom, cutAtError, h, ih (i + 1)]

theorem cutAtError_append (l1 l2 : List (Task × Nat × Except Err Unit)) :
    cutAtError (l1 ++ l2) =
      (match cutAtError l1 with
       | (tr, .error e) => (tr, .error e)
       | (tr, .ok _) =>
         let (tr2, r2) := cutAtError l2
         (tr ++ tr2, r2)) := by
  induction l1 with
  | nil =>
    rcases h2 : cutAtError l2 with ⟨tr2, r2⟩
    simp [cutAtError, h2]
  | cons x rest ih =>
    rcases x with ⟨t, i, r⟩
    cases r with
    | error e => simp [cutAtError]
    | ok u =>
      rcases h1 : cutAtError rest with ⟨tr1, r1⟩
      cases r1 with
      | error e => simp [cutAtError, ih, h1]
      | ok u1 =>
        rcases h2 : cutAtError l2 with ⟨tr2, r2⟩
        simp [cutAtError, ih, h1, h2]

/-- C7: the actor loop of exec processes its surviving tasks in input
order, running the whole actor chain of one task, in declaration order,
before the next task, and cuts the lexicographic sequence of actor calls
at the first error, which becomes the result — so no later actor of that
task and no later task runs; and the tasks surviving the filter phase are
a subsequence of the search results, in search order. -/
theorem c7_actor_order (acts : List (Task → Except Err Unit))
    (filters : List (SearchQuery → Task → Except Err Bool)) (q : SearchQuery)
    (tasks : List Task) :
    actorPhase acts tasks =
      cutAtError (tasks.flatMap fun t => (idxFrom 0 acts).map fun p => (t, p.1, p.2 t)) ∧
    (∀ tr kept, filterPhase filters q tasks = (tr, .ok kept) → kept.Sublist tasks) := by
  constructor
  · induction tasks with
    | nil => rfl
    | cons t rest ih =>
      rw [List.flatMap_cons, cutAtError_append, actorPhase,
        actorChain_eq_cutAtError t acts 0]
      simp only [ih]
  · induction tasks with
    | nil =>
      intro tr kept h
      simp only [filterPhase, Prod.mk.injEq, Except.ok.injEq] at h
      rw [← h.2]
    | cons t rest ih =>
      intro tr kept h
      rw [filterPhase] at h
      rcases h1 : filterChain q t filters 0 with ⟨tr1, r1⟩
      rw [h1] at h
      cases r1 with
      | error e => simp at h
      | ok inc =>
        rcases h2 : filterPhase filters q rest with ⟨tr2, r2⟩
        rw [h2] at h
        cases r2 with
        | error e => simp at h
        | ok kept2 =>
          simp only [Prod.mk.injEq, Except.ok.injEq] at h
          rw [← h.2]
          cases inc with
          | true => exact List.Sublist.cons₂ t (ih tr2 kept2 h2)
          | false => exact List.Sublist.cons t (ih tr2 kept2 h2)

theorem c7_actor_order_witness :
    actorPhase acts0 [tk1, tk2] =
      cutAtError ([tk1, tk2].flatMap fun t =>
        (idxFrom 0 acts0).map fun p => (t, p.1, p.2 t)) ∧
    [tk1].Sublist [tk1, tk2] :=
  ⟨(c7_actor_order acts0 [] qEmpty [tk1, tk2]).1,
    (c7_actor_order acts0
      [fun _ t => .ok (t.gid == "101")] qEmpty [tk1, tk2]).2
      [Event.filterEval tk1 0, Event.filterEval tk2 0] [tk1] rfl⟩

theorem gatePhase_stops :
    ∀ (gates : List (Except Err Bool)) (k : Nat) (r : Except Err Bool) (i : Nat),
      gates.get? k = some r →
      (∀ j, j < k → gates.get? j = some (.ok true)) →
      r ≠ .ok true →
      gatePhase gates i = (gateEvents i (k + 1), r) := by
  intro gates
  induction gates with
  | nil => intro k r i hk _ _; simp at hk
  | cons g rest ih =>
    intro k r i hk hpre hr
    cases k with
    | zero =>
      simp only [List.get?] at hk
      injection hk with hk
      subst hk
      cases g with
      | error e => rfl
      | ok b =>
        cases b with
        | true => exact absurd rfl hr
        | false => rfl
    | succ k2 =>
      have hg : g = .ok true := by
        have h0 := hpre 0 (Nat.succ_pos k2)
        simp only [List.get?] at h0
        injection h0
      subst hg
      rw [show gatePhase (Except.ok true :: rest) i =
        (let (tr, r) := gatePhase rest (i + 1); (.gateEval i :: tr, r)) from rfl]
      rw [ih k2 r (i + 1) hk
        (fun j hj => hpre (j + 1) (Nat.succ_lt_succ hj)) hr]
      rfl

/-- C8: with the workspace client obtained, when gates 0 .. k-1 all say
yes and gate k is the first that does not, exec evaluates exactly gates 0
through k and nothing else — no query mutator, no search, no filter and
no actor event appears — returning success when gate k said no and gate
the error of gate k when it erred. -/
theorem c8_gate_short_circuit (env : Env) (k : Nat) (r : Except Err Bool)
    (hwc : env.getWorkspaceClient = .ok ())
    (hk : env.gates.get? k = some r)
    (hpre : ∀ j, j < k → env.gates.get? j = some (.ok true))
    (hr : r ≠ .ok true) :
    exec env = (gateEvents 0 (k + 1), r.map fun _ => ()) := by
  rw [exec, hwc]
  rw [gatePhase_stops env.gates k r 0 hk hpre hr]
  cases r with
  | error e => rfl
  | ok b =>
    cases b with
    | true => exact absurd rfl hr
    | false => rfl

theorem c8_gate_short_circuit_witness :
    exec env0 = (gateEvents 0 2, (Except.ok false : Except Err Bool).map fun _ => ()) :=
  c8_gate_short_circuit env0 1 (.ok false) rfl rfl
    (fun j hj => by
      have hj0 : j = 0 := Nat.lt_one_iff.mp hj
      subst hj0
      rfl)
    (by simp)

end Automana

